import Mathlib

/-
Shallow embedding of src/main.py, an asyncio site image harvester.

Modelling decisions:
* The network is an oracle: an environment maps each URL to the outcome of
  one HTTP GET, either a response (status code plus body) or a raised
  transport exception (certificate or other).  Image bodies (bytes) are
  modelled as strings of bytes.
* The HTML parser (BeautifulSoup) is an external collaborator: the
  environment also maps each page body to its parsed element list (tags in
  document order, each with a name and an attribute association list).
  Two behaviours of the real library are modelled explicitly because the
  code depends on them: constructing BeautifulSoup from None raises
  TypeError (the constructor calls len on the markup), and indexing a tag
  with a missing attribute, as in img["src"], raises KeyError.  The
  find_all("a", attrs with href matching the regex "^http") call keeps
  exactly the anchors whose href attribute is present and starts with
  "http" (re.search anchored at the start of the string).
* Python string membership (needle in hay) is modelled by strIn, and
  source.split("/")[-1] by lastSegment via splitChar, both defined below
  by structural recursion so that concrete runs evaluate by decide / rfl.
* State: a run threads a record of the GET requests issued (in order) and
  the flat output directory, an association list mapping file name to the
  bytes last written under that name (newest entry first, lookup returns
  the newest).  Writing a file conses an entry, which models overwriting.
* Exceptions are modelled with Except: a Python exception escaping a
  function is an .error result.  asyncio.gather is modelled as a
  sequential fold over the page tasks (a canonical serialization; the
  first raised exception propagates, as gather re-raises it).
-/

/-- A Python exception escaping some function of the embedded program. -/
inductive PyErr where
  | typeError
  | keyError (key : String)
  | clientError (cert : Bool)
  deriving Repr, DecidableEq

/-- Outcome of one HTTP GET on the shared session: a delivered response
with its status code and body, or a raised transport exception
(cert = certificate validation failure, otherwise any other cause). -/
inductive GetOutcome where
  | resp (status : Nat) (body : String)
  | raise (cert : Bool)
  deriving Repr, DecidableEq

/-- A parsed HTML element: tag name and attribute association list. -/
structure Tag where
  name : String
  attrs : List (String × String)
  deriving Repr, DecidableEq

/-- The external world: the shared HTTP session and the HTML parser. -/
structure Env where
  get : String → GetOutcome
  parse : String → List Tag

/-- State threaded through a run: the GET request log (in issue order) and
the output directory as a newest-first association list from file name to
file bytes. -/
structure St where
  reqs : List String
  fs : List (String × String)
  deriving Repr, DecidableEq

/-- Decides whether the first list is an initial segment of the second,
comparing characters with BEq. -/
def listIsPre : List Char → List Char → Bool
  | [], _ => true
  | _ :: _, [] => false
  | a :: as, b :: bs => a == b && listIsPre as bs

/-- Python substring membership, needle in hay: some suffix of hay starts
with needle. -/
def listContains (needle : List Char) : List Char → Bool
  | [] => listIsPre needle []
  | c :: t => listIsPre needle (c :: t) || listContains needle t

/-- Python expression needle in hay on strings. -/
def strIn (needle hay : String) : Bool :=
  listContains needle.toList hay.toList

/-- Python list.split(sep) on character lists: chunks between separators,
never empty, one chunk more than the number of separators. -/
def splitChar (sep : Char) : List Char → List (List Char)
  | [] => [[]]
  | c :: t =>
    let r := splitChar sep t
    if c == sep then [] :: r
    else
      match r with
      | [] => [[c]]
      | h :: t2 => (c :: h) :: t2

/-- Python source.split("/")[-1]: the final path segment of a URL
(src/main.py line 98). -/
def lastSegment (source : String) : String :=
  String.mk ((splitChar '/' source.toList).getLastD [])

/-- Matching the regex "^http" against an attribute value: the value
starts with "http". -/
def startsHttp (h : String) : Bool :=
  listIsPre "http".toList h.toList

/-- Filter used by find_all("a", attrs with href matching "^http")
(src/main.py line 64): anchors whose href is present and starts with
"http". -/
def anchorHrefHttp (t : Tag) : Bool :=
  t.name == "a" &&
    (match t.attrs.lookup "href" with
     | some h => startsHttp h
     | none => false)

/-- BeautifulSoup(content, features="html.parser"): raises TypeError when
content is None (its constructor calls len on the markup), otherwise
parses. -/
def beautifulSoup (env : Env) : Option String → Except PyErr (List Tag)
  | none => .error .typeError
  | some s => .ok (env.parse s)

/-- Issue one GET on the session, recording the URL in the request log
(src/main.py, session.get inside get_page and get_image). -/
def sget (env : Env) (url : String) (st : St) : GetOutcome × St :=
  (env.get url, { st with reqs := st.reqs ++ [url] })

/-- get_page (src/main.py lines 32-50): returns the body on status 200 and
None otherwise; every raised exception is caught and becomes None. -/
def get_page (env : Env) (url : String) (st : St) : Option String × St :=
  match sget env url st with
  | (.raise _, st1) => (none, st1)
  | (.resp status body, st1) => (if status = 200 then some body else none, st1)

/-- get_image (src/main.py lines 18-29): returns None on a non-200 status
and the body bytes on 200; it has no exception handler, so a raised
transport exception escapes. -/
def get_image (env : Env) (url : String) (st : St) :
    Except PyErr (Option String) × St :=
  match sget env url st with
  | (.raise cert, st1) => (.error (.clientError cert), st1)
  | (.resp status body, st1) =>
    (if status = 200 then .ok (some body) else .ok none, st1)

/-- get_all_relevant_subpages (src/main.py lines 53-67): fetch the root
page over https, parse it (BeautifulSoup receives None when the fetch
failed), keep hrefs of anchors matching "^http", then keep those
containing the domain as a substring. -/
def get_all_relevant_subpages (env : Env) (main_page : String) (st : St) :
    Except PyErr (List String) × St :=
  let url := "https://" ++ main_page
  match get_page env url st with
  | (content, st1) =>
    match beautifulSoup env content with
    | .error e => (.error e, st1)
    | .ok soup =>
      let links := (soup.filter anchorHrefHttp).map
        (fun t => (t.attrs.lookup "href").getD "")
      (.ok (links.filter (fun link => strIn main_page link)), st1)

/-- The list comprehension img["src"] for img in soup.find_all("img")
(src/main.py line 81): bracket indexing raises KeyError at the first image
element lacking a src attribute. -/
def image_sources : List Tag → Except PyErr (List String)
  | [] => .ok []
  | t :: ts =>
    match t.attrs.lookup "src" with
    | none => .error (.keyError "src")
    | some s =>
      match image_sources ts with
      | .error e => .error e
      | .ok rest => .ok (s :: rest)

/-- The source normalization (src/main.py line 82): prepend "https:" when
the source does not contain "https:" as a substring, else keep it. -/
def fix_source (source : String) : String :=
  if strIn "https:" source then source else "https:" ++ source

/-- The image download loop of get_url_images (src/main.py lines 83-87):
fetch each source in order, keep the pairs whose fetched value is truthy
(neither None nor empty bytes); an exception from get_image escapes. -/
def fetch_images (env : Env) : List String → St →
    Except PyErr (List (String × String)) × St
  | [], st => (.ok [], st)
  | s :: rest, st =>
    match get_image env s st with
    | (.error e, st1) => (.error e, st1)
    | (.ok img, st1) =>
      match fetch_images env rest st1 with
      | (.error e, st2) => (.error e, st2)
      | (.ok tail, st2) =>
        (.ok (match img with
              | some b => if b = "" then tail else (s, b) :: tail
              | none => tail), st2)

/-- get_url_images (src/main.py lines 70-89): returns [] when the page
body is falsy (fetch failed, or the body is the empty string), otherwise
extracts the img sources, normalizes them, and downloads each. -/
def get_url_images (env : Env) (url : String) (st : St) :
    Except PyErr (List (String × String)) × St :=
  match get_page env url st with
  | (content, st1) =>
    match content with
    | none => (.ok [], st1)
    | some c =>
      if c = "" then (.ok [], st1)
      else
        let soup := env.parse c
        match image_sources (soup.filter (fun t => t.name == "img")) with
        | .error e => (.error e, st1)
        | .ok sources => fetch_images env (sources.map fix_source) st1

/-- save_url_images (src/main.py lines 92-100): write each fetched image
under the final path segment of its source URL; a later write under the
same name overwrites an earlier one. -/
def save_url_images (images : List (String × String)) (st : St) : St :=
  { st with
    fs := images.foldl (fun fs si => (lastSegment si.1, si.2) :: fs) st.fs }

/-- scrape_page (src/main.py lines 103-111): download the images of one
page, then save them; an exception from the download escapes before any
save. -/
def scrape_page (env : Env) (url : String) (st : St) : Except PyErr Unit × St :=
  match get_url_images env url st with
  | (.error e, st1) => (.error e, st1)
  | (.ok images, st1) => (.ok (), save_url_images images st1)

/-- scrape_pages (src/main.py lines 114-121), asyncio.gather modelled as a
sequential fold: scrape each page in order, the first exception
propagating. -/
def scrape_pages (env : Env) : List String → St → Except PyErr Unit × St
  | [], st => (.ok (), st)
  | p :: ps, st =>
    match scrape_page env p st with
    | (.error e, st1) => (.error e, st1)
    | (.ok _, st1) => scrape_pages env ps st1

/-- The work list built by download_all_images (src/main.py lines
129-132): the root page URL followed by every discovered subpage, in
discovery order, with no deduplication. -/
def work_list (env : Env) (main_page : String) (st : St) :
    Except PyErr (List String) × St :=
  match get_all_relevant_subpages env main_page st with
  | (.error e, st1) => (.error e, st1)
  | (.ok subs, st1) => (.ok (("https://" ++ main_page) :: subs), st1)

/-- download_all_images (src/main.py lines 124-136): build the work list,
then scrape every page on it. -/
def download_all_images (env : Env) (main_page : String) (st : St) :
    Except PyErr Unit × St :=
  match work_list env main_page st with
  | (.error e, st1) => (.error e, st1)
  | (.ok pages, st1) => scrape_pages env pages st1

/-- From the spec: an absolute URL has an explicit scheme, a leading
letter followed by letters, digits, plus, minus or dot, then a colon. -/
def schemeChar (c : Char) : Bool :=
  c.isAlphanum || c == '+' || c == '-' || c == '.'

/-- From the spec: the characters after the leading one form the rest of a
scheme marker ending in a colon. -/
def schemeTail : List Char → Bool
  | [] => false
  | c :: rest => if c == ':' then true else schemeChar c && schemeTail rest

/-- From the spec: the string carries an explicit scheme marker, so it
parses as an absolute URL (rules out relative paths and fragment-only
links). -/
def hasExplicitScheme (s : String) : Bool :=
  match s.toList with
  | [] => false
  | c :: rest => c.isAlpha && schemeTail rest

/-- From the spec: a URL uses the HTTPS scheme exactly when it starts with
the scheme marker "https:". -/
def usesHttps (u : String) : Bool :=
  listIsPre "https:".toList u.toList

/-- The empty starting state: no requests issued, no files written. -/
def st0 : St := ⟨[], []⟩

/-- From the spec: the bytes of whichever write under this file name
happened last in the given write sequence, if any write targeted it. -/
def lastWrite (name : String) : List (String × String) → Option String
  | [] => none
  | si :: rest =>
    match lastWrite name rest with
    | some b => some b
    | none => if lastSegment si.1 == name then some si.2 else none

/-- A world where every GET yields HTTP 404 and every parse is empty. -/
def envFail404 : Env := ⟨fun _ => .resp 404 "", fun _ => []⟩

/-- A world where the page fetch succeeds with one image reference whose
GET raises a TLS certificate error. -/
def envTLS : Env :=
  ⟨fun u => if u = "https://p" then .resp 200 "page" else .raise true,
   fun s => if s = "page" then [⟨"img", [("src", "https://i/a.png")]⟩] else []⟩

/-- A world where the fetched page holds an image element without a src
attribute followed by one with a src attribute. -/
def envNoSrc : Env :=
  ⟨fun u =>
     if u = "https://p" then .resp 200 "page"
     else .resp 200 "IMGBYTES",
   fun s =>
     if s = "page" then [⟨"img", []⟩, ⟨"img", [("src", "https://i/b.png")]⟩]
     else []⟩

/-- A world where the root page links to an absolute URL with an ftp
scheme that contains the domain text. -/
def envFtp : Env :=
  ⟨fun _ => .resp 200 "root",
   fun s =>
     if s = "root" then [⟨"a", [("href", "ftp://sub.exponea.com/x")]⟩]
     else []⟩

/-- The world of end-to-end scenario 1: the example.com root page links to
a same-domain page and to an other-domain page. -/
def envScenario1 : Env :=
  ⟨fun u => if u = "https://example.com" then .resp 200 "root" else .resp 200 "",
   fun s =>
     if s = "root" then
       [⟨"a", [("href", "https://example.com/about")]⟩,
        ⟨"a", [("href", "https://other.com/x")]⟩]
     else []⟩

/-- A world where the root page links back to the root URL itself. -/
def envRootSelf : Env :=
  ⟨fun u => if u = "https://example.com" then .resp 200 "root" else .resp 200 "",
   fun s => if s = "root" then [⟨"a", [("href", "https://example.com")]⟩] else []⟩

/-- The world of end-to-end scenario 4: two pages each referencing one
image whose URL ends in /logo.png, with distinct bytes. -/
def envTwoLogos : Env :=
  ⟨fun u =>
     if u = "https://p1" then .resp 200 "page1"
     else if u = "https://p2" then .resp 200 "page2"
     else if u = "https://a.com/logo.png" then .resp 200 "BYTES-A"
     else if u = "https://b.com/logo.png" then .resp 200 "BYTES-B"
     else .resp 404 "",
   fun s =>
     if s = "page1" then [⟨"img", [("src", "https://a.com/logo.png")]⟩]
     else if s = "page2" then [⟨"img", [("src", "https://b.com/logo.png")]⟩]
     else []⟩

/-- A world where the root page links to a same-domain page reached over
plain http. -/
def envHttpLink : Env :=
  ⟨fun u => if u = "https://exponea.com" then .resp 200 "root" else .resp 200 "",
   fun s => if s = "root" then [⟨"a", [("href", "http://exponea.com/a")]⟩] else []⟩

/-- A world where every page fetch succeeds with an empty body. -/
def envEmptyPage : Env := ⟨fun _ => .resp 200 "", fun _ => []⟩

/-- A world where the page holds one image whose GET succeeds with a
zero-length byte payload. -/
def envEmptyImage : Env :=
  ⟨fun u => if u = "https://p" then .resp 200 "page" else .resp 200 "",
   fun s => if s = "page" then [⟨"img", [("src", "https://i/c.png")]⟩] else []⟩

theorem listIsPre_append_self (l r : List Char) : listIsPre l (l ++ r) = true := by
  induction l with
  | nil => rfl
  | cons a as ih => simp [listIsPre, ih]

theorem listContains_of_isPre (n h : List Char) (hp : listIsPre n h = true) :
    listContains n h = true := by
  cases h with
  | nil => simpa [listContains] using hp
  | cons c t => simp [listContains, hp]

theorem splitChar_ne_nil (sep : Char) (l : List Char) : splitChar sep l ≠ [] := by
  cases l with
  | nil => simp [splitChar]
  | cons c t =>
    simp only [splitChar]
    by_cases h : (c == sep) = true
    · simp [h]
    · simp only [h]
      cases hr : splitChar sep t <;> simp

theorem getLastD_default_irrel {α : Type} (l : List α) (a d d' : α) :
    (a :: l).getLastD d = (a :: l).getLastD d' := by
  cases l with
  | nil => rfl
  | cons b t => rw [List.getLastD_cons d a (b :: t), List.getLastD_cons d' a (b :: t)]

theorem splitChar_of_not_mem (sep : Char) (l : List Char) (h : sep ∉ l) :
    splitChar sep l = [l] := by
  induction l with
  | nil => rfl
  | cons c t ih =>
    have hc : (c == sep) = false := by
      simp only [List.mem_cons] at h
      simp [beq_eq_false_iff_ne]
      intro he; exact h (Or.inl he.symm)
    have ht : sep ∉ t := fun hm => h (List.mem_cons_of_mem c hm)
    simp [splitChar, hc, ih ht]

/-- The chunk of a character list after its last separator. -/
def lastChunk (sep : Char) (l : List Char) : List Char :=
  (splitChar sep l).getLastD []

theorem splitChar_length_two_of_mem (sep : Char) (l : List Char) (h : sep ∈ l) :
    2 ≤ (splitChar sep l).length := by
  induction l with
  | nil => cases h
  | cons c t ih =>
    simp only [splitChar]
    by_cases hc : (c == sep) = true
    · simp only [hc, if_pos]
      have := splitChar_ne_nil sep t
      cases hr : splitChar sep t with
      | nil => exact absurd hr this
      | cons x xs => simp
    · simp only [hc]
      have hmem : sep ∈ t := by
        rcases List.mem_cons.mp h with he | hm
        · exact absurd he.symm (by simpa [beq_eq_false_iff_ne] using hc)
        · exact hm
      have h2 := ih hmem
      cases hr : splitChar sep t with
      | nil => exact absurd hr (splitChar_ne_nil sep t)
      | cons x xs =>
        rw [hr] at h2
        cases xs with
        | nil => simp at h2
        | cons y ys => simp

theorem splitChar_cons_of_beq (sep c : Char) (t : List Char) (hc : (c == sep) = true) :
    splitChar sep (c :: t) = [] :: splitChar sep t := by
  simp [splitChar, hc]

theorem splitChar_cons_of_ne (sep c : Char) (t : List Char) (hc : (c == sep) = false)
    (h : List Char) (rest : List (List Char)) (hr : splitChar sep t = h :: rest) :
    splitChar sep (c :: t) = (c :: h) :: rest := by
  simp [splitChar, hc, hr]

theorem lastChunk_cons_of_beq (sep c : Char) (t : List Char) (hc : (c == sep) = true) :
    lastChunk sep (c :: t) = lastChunk sep t := by
  simp only [lastChunk, splitChar_cons_of_beq sep c t hc, List.getLastD_cons]

theorem lastChunk_cons_of_ne (sep c : Char) (t : List Char) (hc : (c == sep) = false)
    (h h2 : List Char) (t3 : List (List Char)) (hr : splitChar sep t = h :: h2 :: t3) :
    lastChunk sep (c :: t) = lastChunk sep t := by
  have e1 : ((c :: h) :: h2 :: t3).getLastD ([] : List Char) = (h2 :: t3).getLastD (c :: h) :=
    List.getLastD_cons [] (c :: h) (h2 :: t3)
  have e2 : (h :: h2 :: t3).getLastD ([] : List Char) = (h2 :: t3).getLastD h :=
    List.getLastD_cons [] h (h2 :: t3)
  simp only [lastChunk, splitChar_cons_of_ne sep c t hc h (h2 :: t3) hr, hr]
  rw [e1, e2]
  exact getLastD_default_irrel t3 h2 (c :: h) h

theorem lastChunk_not_mem (sep : Char) (l : List Char) : sep ∉ lastChunk sep l := by
  induction l with
  | nil => simp [lastChunk, splitChar]
  | cons c t ih =>
    by_cases hc : (c == sep) = true
    · rw [lastChunk_cons_of_beq sep c t hc]; exact ih
    · have hcf : (c == sep) = false := by simpa using hc
      have hcne : c ≠ sep := by simpa [beq_eq_false_iff_ne] using hcf
      cases hr : splitChar sep t with
      | nil => exact absurd hr (splitChar_ne_nil sep t)
      | cons h t2 =>
        cases t2 with
        | nil =>
          have hh : lastChunk sep t = h := by simp [lastChunk, hr]
          rw [lastChunk, splitChar_cons_of_ne sep c t hcf h [] hr]
          simp only [List.getLastD_cons, List.getLastD_nil]
          intro hmem
          rcases List.mem_cons.mp hmem with he | hm
          · exact hcne he.symm
          · exact ih (hh ▸ hm)
        | cons h2 t3 =>
          rw [lastChunk_cons_of_ne sep c t hcf h h2 t3 hr]
          exact ih

theorem lastChunk_decomp (sep : Char) (l : List Char) (hin : sep ∈ l) :
    ∃ pre, l = pre ++ sep :: lastChunk sep l := by
  induction l with
  | nil => cases hin
  | cons c t ih =>
    by_cases hc : (c == sep) = true
    · have hce : c = sep := eq_of_beq hc
      rw [lastChunk_cons_of_beq sep c t hc]
      by_cases hm : sep ∈ t
      · rcases ih hm with ⟨pre, hp⟩
        exact ⟨c :: pre, by rw [List.cons_append]; exact congrArg (c :: ·) hp⟩
      · have hs := splitChar_of_not_mem sep t hm
        have hl : lastChunk sep t = t := by simp [lastChunk, hs]
        exact ⟨[], by rw [hl, List.nil_append, hce]⟩
    · have hcf : (c == sep) = false := by simpa using hc
      have hcne : c ≠ sep := by simpa [beq_eq_false_iff_ne] using hcf
      have hm : sep ∈ t := by
        rcases List.mem_cons.mp hin with he | hmm
        · exact absurd he.symm hcne
        · exact hmm
      have hlen := splitChar_length_two_of_mem sep t hm
      cases hr : splitChar sep t with
      | nil => exact absurd hr (splitChar_ne_nil sep t)
      | cons hd t2 =>
        cases t2 with
        | nil => rw [hr] at hlen; simp at hlen
        | cons h2 t3 =>
          rw [lastChunk_cons_of_ne sep c t hcf hd h2 t3 hr]
          rcases ih hm with ⟨pre, hp⟩
          exact ⟨c :: pre, by rw [List.cons_append]; exact congrArg (c :: ·) hp⟩

theorem strIn_append_self (s : String) : strIn "https:" ("https:" ++ s) = true := by
  have ht : ("https:" ++ s).toList = "https:".toList ++ s.toList := by
    simp [String.toList]
  rw [strIn, ht]
  exact listContains_of_isPre _ _ (listIsPre_append_self _ _)

theorem save_fold_lookup (images : List (String × String))
    (fs : List (String × String)) (name : String) :
    List.lookup name
        (images.foldl (fun acc si => (lastSegment si.1, si.2) :: acc) fs) =
      match lastWrite name images with
      | some b => some b
      | none => List.lookup name fs := by
  induction images generalizing fs with
  | nil => simp [lastWrite]
  | cons i rest ih =>
    simp only [List.foldl_cons, lastWrite]
    rw [ih ((lastSegment i.1, i.2) :: fs)]
    cases hlw : lastWrite name rest with
    | some b => simp
    | none =>
      simp only [List.lookup]
      by_cases he : name = lastSegment i.1
      · have h1 : (name == lastSegment i.1) = true := by simp [he]
        have h2 : (lastSegment i.1 == name) = true := by simp [he]
        simp [h1, h2]
      · have h1 : (name == lastSegment i.1) = false := by simp [he]
        have h2 : (lastSegment i.1 == name) = false := by
          simp [beq_eq_false_iff_ne]; exact fun hx => he hx.symm
        simp [h1, h2]

theorem lastSegment_spec (source : String) :
    ((lastSegment source).toList.all (fun c => c != '/')) = true ∧
      (source.toList = (lastSegment source).toList ∨
        ∃ pre, source.toList = pre ++ '/' :: (lastSegment source).toList) := by
  have htl : (lastSegment source).toList = lastChunk '/' source.toList := rfl
  constructor
  · rw [htl]
    simp only [List.all_eq_true, bne_iff_ne, ne_eq]
    intro c hc he
    exact lastChunk_not_mem '/' source.toList (he ▸ hc)
  · by_cases hm : '/' ∈ source.toList
    · rcases lastChunk_decomp '/' source.toList hm with ⟨pre, hp⟩
      exact Or.inr ⟨pre, by rw [htl]; exact hp⟩
    · have hs := splitChar_of_not_mem '/' source.toList hm
      exact Or.inl (by rw [htl, lastChunk, hs]; rfl)

/-- C1: the claim says a crawl whose root-page fetch fails completes
normally with an empty subpage set.  The code instead hands the absent
body (None) to BeautifulSoup, which raises TypeError; the exception
escapes get_all_relevant_subpages and aborts download_all_images.  This
theorem evaluates the crawl at such a failing input: every GET yields 404,
get_page returns None, and the whole crawl ends in the TypeError. -/
theorem c1_root_fetch_failure_crashes :
    (download_all_images envFail404 "exponea.com" st0).1 = .error .typeError ∧
      envFail404.get "https://exponea.com" = .resp 404 "" :=
  ⟨rfl, rfl⟩

/-- C9: the source normalization of image references is idempotent:
applying fix_source twice equals applying it once, because the result of
one application always contains the substring "https:". -/
theorem c9_fix_source_idempotent (source : String) :
    fix_source (fix_source source) = fix_source source := by
  by_cases h : strIn "https:" source = true
  · simp [fix_source, h]
  · have hf : strIn "https:" source = false := by simpa using h
    simp [fix_source, hf, strIn_append_self]

/-- C4, counterexample: an already-absolute URL with the explicit scheme
"http:" is not left unchanged; the code prepends "https:" to it because
its test is substring containment of "https:", not scheme presence. -/
theorem c4_counterexample :
    fix_source "http://example.com/a.png" = "https:http://example.com/a.png" ∧
      hasExplicitScheme "http://example.com/a.png" = true ∧
      "https:http://example.com/a.png" ≠ "http://example.com/a.png" := by
  refine ⟨by decide, by decide, by decide⟩

/-- C4, amended: normalization prepends "https:" exactly when the source
does not contain "https:" as a substring, and leaves the source unchanged
exactly when it does; a protocol-relative source therefore becomes an
https URL, while an "http://" source is changed to "https:http://...". -/
theorem c4_amended :
    (∀ source : String,
        (strIn "https:" source = false → fix_source source = "https:" ++ source) ∧
          (strIn "https:" source = true → fix_source source = source)) ∧
      fix_source "//cdn.example.com/a.png" = "https://cdn.example.com/a.png" ∧
      fix_source "https://cdn.example.com/b.jpg" = "https://cdn.example.com/b.jpg" ∧
      fix_source "http://example.com/a.png" = "https:http://example.com/a.png" := by
  refine ⟨fun source => ⟨fun h => by simp [fix_source, h], fun h => by simp [fix_source, h]⟩,
    by decide, by decide, by decide⟩

/-- C4, witness: the amended normalization rule evaluated on a concrete
protocol-relative source. -/
theorem c4_witness :
    strIn "https:" "//cdn.example.com/a.png" = false ∧
      fix_source "//cdn.example.com/a.png" = "https:" ++ "//cdn.example.com/a.png" :=
  ⟨by decide, (c4_amended.1 "//cdn.example.com/a.png").1 (by decide)⟩

/-- C2, counterexample: an image GET that raises a TLS certificate error
is not collapsed to an absent value; get_image has no exception handler,
so the exception escapes and fails the enclosing page scrape. -/
theorem c2_counterexample :
    (get_url_images envTLS "https://p" st0).1 = .error (.clientError true) ∧
      envTLS.get "https://i/a.png" = .raise true :=
  ⟨rfl, rfl⟩

/-- C2, amended: when the image GET completes with a response whose status
is not 200, get_image returns an absent value without raising, and the
remaining images of the page are still fetched exactly as if the failed
one were not present; only a raised transport exception escapes. -/
theorem c2_amended (env : Env) (src : String) (rest : List String) (st : St)
    (code : Nat) (body : String) (hresp : env.get src = .resp code body)
    (hcode : code ≠ 200) :
    (get_image env src st).1 = .ok none ∧
      (fetch_images env (src :: rest) st).1 =
        (fetch_images env rest { st with reqs := st.reqs ++ [src] }).1 := by
  have himg : get_image env src st = (.ok none, { st with reqs := st.reqs ++ [src] }) := by
    simp [get_image, sget, hresp, hcode]
  refine ⟨by rw [himg], ?_⟩
  simp only [fetch_images, himg]
  rcases hf : fetch_images env rest { st with reqs := st.reqs ++ [src] } with ⟨r, st2⟩
  cases r <;> simp

/-- C2, witness: the amended statement evaluated at a concrete 404
response. -/
theorem c2_witness :
    envFail404.get "https://i/x.png" = .resp 404 "" ∧ (404 : Nat) ≠ 200 ∧
      ((get_image envFail404 "https://i/x.png" st0).1 = .ok none ∧
        (fetch_images envFail404 ["https://i/x.png"] st0).1 =
          (fetch_images envFail404 [] { st0 with reqs := st0.reqs ++ ["https://i/x.png"] }).1) :=
  ⟨rfl, by decide, c2_amended envFail404 "https://i/x.png" [] st0 404 "" rfl (by decide)⟩

/-- C3, counterexample: on a page whose first image element has no src
attribute, extraction raises KeyError instead of skipping the element, and
the later image element with a src attribute is never extracted. -/
theorem c3_counterexample :
    (get_url_images envNoSrc "https://p" st0).1 = .error (.keyError "src") ∧
      envNoSrc.parse "page" = [⟨"img", []⟩, ⟨"img", [("src", "https://i/b.png")]⟩] :=
  ⟨rfl, rfl⟩

/-- C3, amended: as soon as the extraction comprehension reaches an image
element with no src attribute it raises KeyError, whatever elements
follow; elements before it do not prevent the error. -/
theorem c3_amended (pre : List Tag) (t : Tag) (post : List Tag)
    (hpre : ∀ u ∈ pre, (u.attrs.lookup "src").isSome = true)
    (ht : t.attrs.lookup "src" = none) :
    image_sources (pre ++ t :: post) = .error (.keyError "src") := by
  induction pre with
  | nil => simp [image_sources, ht]
  | cons u us ih =>
    have hu := hpre u (List.mem_cons_self u us)
    rcases Option.isSome_iff_exists.mp hu with ⟨s, hs⟩
    have husr := ih (fun v hv => hpre v (List.mem_cons_of_mem u hv))
    simp [image_sources, hs, husr]

/-- C3, witness: the amended statement evaluated on a concrete element
list with a src-less image element in second position. -/
theorem c3_witness :
    (∀ u ∈ [(⟨"img", [("src", "https://i/b.png")]⟩ : Tag)],
        ((u.attrs.lookup "src").isSome) = true) ∧
      image_sources ([(⟨"img", [("src", "https://i/b.png")]⟩ : Tag)] ++
          (⟨"img", []⟩ : Tag) :: []) = .error (.keyError "src") :=
  ⟨by decide,
    c3_amended [⟨"img", [("src", "https://i/b.png")]⟩] ⟨"img", []⟩ [] (by decide) (by decide)⟩

/-- C10: the skip signal at the page-scrape boundary is truthiness.  A
page fetch that succeeds with an empty body yields no images, exactly as a
failed fetch does; an image fetch that succeeds with zero-length bytes is
dropped, so no file is written for it. -/
theorem c10_truthiness :
    (∀ (env : Env) (url : String) (st : St), env.get url = .resp 200 "" →
        (get_url_images env url st).1 = .ok []) ∧
      (∀ (env : Env) (src : String) (rest : List String) (st : St),
          env.get src = .resp 200 "" →
          (fetch_images env (src :: rest) st).1 =
            (fetch_images env rest { st with reqs := st.reqs ++ [src] }).1) ∧
      ((scrape_page envEmptyImage "https://p" st0).1 = .ok () ∧
        (scrape_page envEmptyImage "https://p" st0).2.fs = []) := by
  refine ⟨?_, ?_, rfl, rfl⟩
  · intro env url st h
    simp [get_url_images, get_page, sget, h]
  · intro env src rest st h
    have himg : get_image env src st = (.ok (some ""), { st with reqs := st.reqs ++ [src] }) := by
      simp [get_image, sget, h]
    simp only [fetch_images, himg]
    rcases hf : fetch_images env rest { st with reqs := st.reqs ++ [src] } with ⟨r, st2⟩
    cases r <;> simp

/-- C10, witness: the truthiness statement evaluated at a page whose fetch
returns an empty body. -/
theorem c10_witness :
    envEmptyPage.get "https://x" = .resp 200 "" ∧
      (get_url_images envEmptyPage "https://x" st0).1 = .ok [] :=
  ⟨rfl, c10_truthiness.1 envEmptyPage "https://x" st0 rfl⟩

/-- C7: files are written under the final path segment of the image
source URL (a segment free of slashes that is either the whole source or
the text after its last slash), a later write under a name overwrites an
earlier one so that lookup yields the bytes of the last write with that
name, and in the two-page scenario exactly the bytes written last remain
under logo.png. -/
theorem c7_saved_filenames :
    (∀ source : String,
        ((lastSegment source).toList.all (fun c => c != '/')) = true ∧
          (source.toList = (lastSegment source).toList ∨
            ∃ pre, source.toList = pre ++ '/' :: (lastSegment source).toList)) ∧
      (∀ (images : List (String × String)) (st : St) (name : String),
          ((save_url_images images st).fs).lookup name =
            match lastWrite name images with
            | some b => some b
            | none => st.fs.lookup name) ∧
      ((scrape_pages envTwoLogos ["https://p1", "https://p2"] st0).1 = .ok () ∧
        ((scrape_pages envTwoLogos ["https://p1", "https://p2"] st0).2.fs).lookup
            "logo.png" = some "BYTES-B") := by
  refine ⟨lastSegment_spec, ?_, rfl, rfl⟩
  intro images st name
  exact save_fold_lookup images st.fs name

/-- C6: the work list is exactly the root page URL consed onto the
discovered subpages in discovery order with no deduplication; in scenario
1 it is [root, same-domain link] with the other-domain link excluded, and
a discovered link equal to the root URL appears a second time. -/
theorem c6_work_list :
    (∀ (env : Env) (main_page : String) (st : St) (l : List String) (st1 : St),
        work_list env main_page st = (.ok l, st1) →
        ∃ subs, get_all_relevant_subpages env main_page st = (.ok subs, st1) ∧
          l = ("https://" ++ main_page) :: subs) ∧
      (work_list envScenario1 "example.com" st0).1 =
        .ok ["https://example.com", "https://example.com/about"] ∧
      (work_list envRootSelf "example.com" st0).1 =
        .ok ["https://example.com", "https://example.com"] := by
  refine ⟨?_, rfl, rfl⟩
  intro env main_page st l st1 h
  rcases hg : get_all_relevant_subpages env main_page st with ⟨r, st2⟩
  simp only [work_list, hg] at h
  cases r with
  | error e => simp at h
  | ok subs =>
    simp only [Prod.mk.injEq, Except.ok.injEq] at h
    obtain ⟨hl, hst⟩ := h
    rw [hst]
    exact ⟨subs, rfl, hl.symm⟩

/-- C6, witness: the work list equation applied to scenario 1. -/
theorem c6_witness :
    ∃ subs, get_all_relevant_subpages envScenario1 "example.com" st0 =
        (.ok subs, ⟨["https://example.com"], []⟩) ∧
      ["https://example.com", "https://example.com/about"] =
        ("https://" ++ "example.com") :: subs :=
  c6_work_list.1 envScenario1 "example.com" st0
    ["https://example.com", "https://example.com/about"]
    ⟨["https://example.com"], []⟩ rfl

theorem gars_eq_of_resp200 (env : Env) (main_page : String) (st : St) (c : String)
    (hroot : env.get ("https://" ++ main_page) = .resp 200 c) :
    get_all_relevant_subpages env main_page st =
      (.ok ((((env.parse c).filter anchorHrefHttp).map
          (fun t => (t.attrs.lookup "href").getD "")).filter
        (fun link => strIn main_page link)),
       { st with reqs := st.reqs ++ ["https://" ++ main_page] }) := by
  simp [get_all_relevant_subpages, get_page, sget, hroot, beautifulSoup]

/-- C5, counterexample: an anchor href that is an absolute URL with an
explicit scheme and contains the domain filter substring is nevertheless
excluded, because the code keeps only hrefs starting with "http". -/
theorem c5_counterexample :
    (get_all_relevant_subpages envFtp "exponea.com" st0).1 = .ok [] ∧
      envFtp.parse "root" = [⟨"a", [("href", "ftp://sub.exponea.com/x")]⟩] ∧
      hasExplicitScheme "ftp://sub.exponea.com/x" = true ∧
      strIn "exponea.com" "ftp://sub.exponea.com/x" = true :=
  ⟨rfl, rfl, by decide, by decide⟩

/-- C5, amended: a parsed anchor href is included exactly when it starts
with the four characters "http" and contains the domain filter as a
substring anywhere; included hrefs are kept verbatim. -/
theorem c5_amended (env : Env) (main_page : String) (st : St) (c : String)
    (subs : List String) (st1 : St)
    (hroot : env.get ("https://" ++ main_page) = .resp 200 c)
    (hrun : get_all_relevant_subpages env main_page st = (.ok subs, st1))
    (link : String) :
    link ∈ subs ↔
      ∃ t ∈ env.parse c, t.name = "a" ∧ t.attrs.lookup "href" = some link ∧
        startsHttp link = true ∧ strIn main_page link = true := by
  rw [gars_eq_of_resp200 env main_page st c hroot] at hrun
  injection hrun with h1 h2
  injection h1 with h1b
  rw [← h1b]
  constructor
  · intro hm
    rcases List.mem_filter.mp hm with ⟨hmap, hstr⟩
    rcases List.mem_map.mp hmap with ⟨t, htmem, hteq⟩
    rcases List.mem_filter.mp htmem with ⟨htsoup, htanchor⟩
    simp only [anchorHrefHttp, Bool.and_eq_true, beq_iff_eq] at htanchor
    cases hlook : t.attrs.lookup "href" with
    | none => rw [hlook] at htanchor; simp at htanchor
    | some h0 =>
      rw [hlook] at htanchor
      rw [hlook] at hteq
      simp only [Option.getD_some] at hteq
      refine ⟨t, htsoup, htanchor.1, ?_, ?_, hstr⟩
      · rw [hlook, hteq]
      · rw [← hteq]; exact htanchor.2
  · rintro ⟨t, htmem, hname, hhref, hstart, hstr⟩
    refine List.mem_filter.mpr ⟨?_, hstr⟩
    refine List.mem_map.mpr ⟨t, List.mem_filter.mpr ⟨htmem, ?_⟩, ?_⟩
    · simp [anchorHrefHttp, hname, hhref, hstart]
    · rw [hhref]; rfl

/-- C5, witness: the amended inclusion rule applied to scenario 1, where
the same-domain link is included. -/
theorem c5_witness :
    "https://example.com/about" ∈ ["https://example.com/about"] ↔
      ∃ t ∈ envScenario1.parse "root", t.name = "a" ∧
        t.attrs.lookup "href" = some "https://example.com/about" ∧
        startsHttp "https://example.com/about" = true ∧
        strIn "example.com" "https://example.com/about" = true :=
  c5_amended envScenario1 "example.com" st0 "root" ["https://example.com/about"]
    ⟨["https://example.com"], []⟩ rfl rfl "https://example.com/about"

theorem reqs_get_page (env : Env) (url : String) (st : St) :
    (get_page env url st).2 = { st with reqs := st.reqs ++ [url] } := by
  cases h : env.get url <;> simp [get_page, sget, h]

theorem reqs_get_image (env : Env) (url : String) (st : St) :
    (get_image env url st).2 = { st with reqs := st.reqs ++ [url] } := by
  cases h : env.get url <;> simp [get_image, sget, h]

theorem mem_reqs_fetch_images (env : Env) (srcs : List String) :
    ∀ (st : St) (u : String), u ∈ (fetch_images env srcs st).2.reqs →
      u ∈ st.reqs ∨ u ∈ srcs := by
  induction srcs with
  | nil => intro st u hu; exact Or.inl hu
  | cons s rest ih =>
    intro st u hu
    rcases hgi : get_image env s st with ⟨e | img, st1⟩
    case mk.error =>
      have hst1 : st1 = { st with reqs := st.reqs ++ [s] } := by
        have h := reqs_get_image env s st
        rw [hgi] at h
        exact h
      simp only [fetch_images, hgi] at hu
      rw [hst1] at hu
      rcases List.mem_append.mp hu with h | h
      · exact Or.inl h
      · have he : u = s := by simpa using h
        exact Or.inr (he ▸ List.mem_cons_self s rest)
    case mk.ok =>
      have hst1 : st1 = { st with reqs := st.reqs ++ [s] } := by
        have h := reqs_get_image env s st
        rw [hgi] at h
        exact h
      simp only [fetch_images, hgi] at hu
      rcases hf : fetch_images env rest st1 with ⟨e2 | tail, st2⟩ <;>
        simp only [hf] at hu <;>
        rcases ih st1 u (by rw [hf]; exact hu) with h | h
      · rw [hst1] at h
        rcases List.mem_append.mp h with h2 | h2
        · exact Or.inl h2
        · have he : u = s := by simpa using h2
          exact Or.inr (he ▸ List.mem_cons_self s rest)
      · exact Or.inr (List.mem_cons_of_mem s h)
      · rw [hst1] at h
        rcases List.mem_append.mp h with h2 | h2
        · exact Or.inl h2
        · have he : u = s := by simpa using h2
          exact Or.inr (he ▸ List.mem_cons_self s rest)
      · exact Or.inr (List.mem_cons_of_mem s h)

theorem mem_reqs_get_url_images (env : Env) (url : String) (st : St) (u : String)
    (hu : u ∈ (get_url_images env url st).2.reqs) :
    u ∈ st.reqs ∨ u = url ∨ ∃ s, u = fix_source s := by
  rcases hgp : get_page env url st with ⟨_ | c, st1⟩
  case mk.none =>
    have hst1 : st1 = { st with reqs := st.reqs ++ [url] } := by
      have h := reqs_get_page env url st
      rw [hgp] at h
      exact h
    simp only [get_url_images, hgp] at hu
    rw [hst1] at hu
    rcases List.mem_append.mp hu with h2 | h2
    · exact Or.inl h2
    · exact Or.inr (Or.inl (by simpa using h2))
  case mk.some =>
    have hst1 : st1 = { st with reqs := st.reqs ++ [url] } := by
      have h := reqs_get_page env url st
      rw [hgp] at h
      exact h
    have hfromst1 : u ∈ st1.reqs → u ∈ st.reqs ∨ u = url ∨ ∃ s, u = fix_source s := by
      intro h
      rw [hst1] at h
      rcases List.mem_append.mp h with h2 | h2
      · exact Or.inl h2
      · exact Or.inr (Or.inl (by simpa using h2))
    simp only [get_url_images, hgp] at hu
    by_cases hc : c = ""
    · simp only [hc, if_pos] at hu
      exact hfromst1 (by simpa using hu)
    · rw [if_neg hc] at hu
      rcases his : image_sources ((env.parse c).filter (fun t => t.name == "img"))
        with e | sources
      · rw [his] at hu
        exact hfromst1 hu
      · rw [his] at hu
        rcases mem_reqs_fetch_images env (sources.map fix_source) st1 u hu with h | h
        · exact hfromst1 h
        · rcases List.mem_map.mp h with ⟨s, _, hs⟩
          exact Or.inr (Or.inr ⟨s, hs.symm⟩)

theorem mem_reqs_scrape_page (env : Env) (p : String) (st : St) (u : String)
    (hu : u ∈ (scrape_page env p st).2.reqs) :
    u ∈ st.reqs ∨ u = p ∨ ∃ s, u = fix_source s := by
  rcases hgui : get_url_images env p st with ⟨e | images, st1⟩ <;>
    simp only [scrape_page, hgui] at hu
  · exact mem_reqs_get_url_images env p st u (by rw [hgui]; exact hu)
  · exact mem_reqs_get_url_images env p st u (by rw [hgui]; exact hu)

theorem mem_reqs_scrape_pages (env : Env) :
    ∀ (pages : List String) (st : St) (u : String),
      u ∈ (scrape_pages env pages st).2.reqs →
      u ∈ st.reqs ∨ u ∈ pages ∨ ∃ s, u = fix_source s := by
  intro pages
  induction pages with
  | nil => intro st u hu; exact Or.inl hu
  | cons p ps ih =>
    intro st u hu
    rcases hsp : scrape_page env p st with ⟨e | v, st1⟩ <;>
      simp only [scrape_pages, hsp] at hu
    · rcases mem_reqs_scrape_page env p st u (by rw [hsp]; exact hu) with h2 | h2 | h2
      · exact Or.inl h2
      · exact Or.inr (Or.inl (h2 ▸ List.mem_cons_self p ps))
      · exact Or.inr (Or.inr h2)
    · rcases ih st1 u hu with h | h | h
      · rcases mem_reqs_scrape_page env p st u (by rw [hsp]; exact h) with h2 | h2 | h2
        · exact Or.inl h2
        · exact Or.inr (Or.inl (h2 ▸ List.mem_cons_self p ps))
        · exact Or.inr (Or.inr h2)
      · exact Or.inr (Or.inl (List.mem_cons_of_mem p h))
      · exact Or.inr (Or.inr h)

theorem reqs_gars (env : Env) (main_page : String) (st : St) :
    (get_all_relevant_subpages env main_page st).2 =
      { st with reqs := st.reqs ++ ["https://" ++ main_page] } := by
  rcases hgp : get_page env ("https://" ++ main_page) st with ⟨_ | c, st1⟩ <;>
    simp only [get_all_relevant_subpages, hgp, beautifulSoup]
  · have h1 := reqs_get_page env ("https://" ++ main_page) st
    rw [hgp] at h1
    exact h1
  · have h1 := reqs_get_page env ("https://" ++ main_page) st
    rw [hgp] at h1
    exact h1

theorem mem_links_startsHttp (soup : List Tag) (main_page link : String)
    (hm : link ∈ ((soup.filter anchorHrefHttp).map
        (fun t => (t.attrs.lookup "href").getD "")).filter
      (fun x => strIn main_page x)) :
    startsHttp link = true := by
  rcases List.mem_filter.mp hm with ⟨hmap, _⟩
  rcases List.mem_map.mp hmap with ⟨t, htmem, hteq⟩
  rcases List.mem_filter.mp htmem with ⟨_, htanchor⟩
  simp only [anchorHrefHttp, Bool.and_eq_true] at htanchor
  cases hlook : t.attrs.lookup "href" with
  | none => rw [hlook] at htanchor; simp at htanchor
  | some h0 =>
    rw [hlook] at htanchor
    rw [hlook] at hteq
    simp only [Option.getD_some] at hteq
    rw [← hteq]
    exact htanchor.2

theorem gars_subs_startsHttp (env : Env) (main_page : String) (st : St)
    (subs : List String) (st1 : St)
    (hrun : get_all_relevant_subpages env main_page st = (.ok subs, st1)) :
    ∀ link ∈ subs, startsHttp link = true := by
  intro link hm
  cases hget : env.get ("https://" ++ main_page) with
  | raise cert =>
    simp [get_all_relevant_subpages, get_page, sget, hget, beautifulSoup] at hrun
  | resp status body =>
    by_cases hs : status = 200
    · subst hs
      rw [gars_eq_of_resp200 env main_page st body hget] at hrun
      injection hrun with h1 h2
      injection h1 with h1b
      rw [← h1b] at hm
      exact mem_links_startsHttp (env.parse body) main_page link hm
    · simp [get_all_relevant_subpages, get_page, sget, hget, hs, beautifulSoup] at hrun

theorem startsHttp_https_append (s : String) :
    startsHttp ("https://" ++ s) = true := by
  have ht : ("https://" ++ s).toList =
      'h' :: 't' :: 't' :: 'p' :: 's' :: ':' :: '/' :: '/' :: s.toList := by
    simp [String.toList]
  rw [startsHttp, ht]
  simp [listIsPre]

theorem strIn_fix_source (s : String) : strIn "https:" (fix_source s) = true := by
  by_cases h : strIn "https:" s = true
  · simp [fix_source, h]
  · have hf : strIn "https:" s = false := by simpa using h
    simp [fix_source, hf, strIn_append_self]

/-- C8, counterexample: the crawl of a root page linking to
http://exponea.com/a issues a GET on that URL, which does not use the
HTTPS scheme. -/
theorem c8_counterexample :
    "http://exponea.com/a" ∈ (download_all_images envHttpLink "exponea.com" st0).2.reqs ∧
      usesHttps "http://exponea.com/a" = false := by
  constructor
  · have h : (download_all_images envHttpLink "exponea.com" st0).2.reqs =
        ["https://exponea.com", "https://exponea.com", "http://exponea.com/a"] := rfl
    rw [h]
    decide
  · decide

/-- C8, amended: every URL a crawl issues a GET on either was already in
the request log, or starts with "http" (the root URL always with
"https://", subpage hrefs verbatim, possibly plain http), or contains
"https:" as a substring (every normalized image source); no stronger
HTTPS-only guarantee holds. -/
theorem c8_amended (env : Env) (main_page : String) (st : St) (u : String)
    (hu : u ∈ (download_all_images env main_page st).2.reqs) :
    u ∈ st.reqs ∨ startsHttp u = true ∨ strIn "https:" u = true := by
  rcases hg : get_all_relevant_subpages env main_page st with ⟨e | subs, st1⟩
  case mk.error =>
    have hst1 : st1 = { st with reqs := st.reqs ++ ["https://" ++ main_page] } := by
      have h := reqs_gars env main_page st
      rw [hg] at h
      exact h
    simp only [download_all_images, work_list, hg] at hu
    rw [hst1] at hu
    rcases List.mem_append.mp hu with h2 | h2
    · exact Or.inl h2
    · have he : u = "https://" ++ main_page := by simpa using h2
      refine Or.inr (Or.inl ?_)
      rw [he]
      exact startsHttp_https_append main_page
  case mk.ok =>
    have hst1 : st1 = { st with reqs := st.reqs ++ ["https://" ++ main_page] } := by
      have h := reqs_gars env main_page st
      rw [hg] at h
      exact h
    simp only [download_all_images, work_list, hg] at hu
    rcases mem_reqs_scrape_pages env (("https://" ++ main_page) :: subs) st1 u hu
      with h | h | h
    · rw [hst1] at h
      rcases List.mem_append.mp h with h2 | h2
      · exact Or.inl h2
      · have he : u = "https://" ++ main_page := by simpa using h2
        refine Or.inr (Or.inl ?_)
        rw [he]
        exact startsHttp_https_append main_page
    · rcases List.mem_cons.mp h with h2 | h2
      · refine Or.inr (Or.inl ?_)
        rw [h2]
        exact startsHttp_https_append main_page
      · exact Or.inr (Or.inl (gars_subs_startsHttp env main_page st subs st1 hg u h2))
    · rcases h with ⟨s, hs⟩
      refine Or.inr (Or.inr ?_)
      rw [hs]
      exact strIn_fix_source s

/-- C8, witness: the amended invariant applied to the root GET of a
concrete crawl. -/
theorem c8_witness :
    "https://exponea.com" ∈ (download_all_images envHttpLink "exponea.com" st0).2.reqs ∧
      ("https://exponea.com" ∈ st0.reqs ∨ startsHttp "https://exponea.com" = true ∨
        strIn "https:" "https://exponea.com" = true) := by
  have hmem : "https://exponea.com" ∈
      (download_all_images envHttpLink "exponea.com" st0).2.reqs := by
    have h : (download_all_images envHttpLink "exponea.com" st0).2.reqs =
        ["https://exponea.com", "https://exponea.com", "http://exponea.com/a"] := rfl
    rw [h]
    decide
  exact ⟨hmem, c8_amended envHttpLink "exponea.com" st0 "https://exponea.com" hmem⟩
